import Mathlib

/-!
Verification of the enthistory schema-derivation engine and runtime mutation
hooks (datumforge/enthistory) against its natural-language specification.

The Go sources are embedded shallowly:

* `load.Field`, `load.Schema`, the `History` annotation and the extension
  `Config` become Lean structures carrying exactly the components the
  repository's code reads or writes;
* pure functions (`shouldGenerate`, `createHistoryFields`, `isOrgOwned`,
  `isUserOwned`, `sortSchemasAlphabetically`, the schema-construction core of
  `generateHistorySchema`) become Lean functions translated clause by clause;
* the runtime hooks (`historyHookCreate` / `Update` / `Delete`, `On`) are
  embedded with an explicit event trace recording each side effect (the
  underlying mutate and the three history-write callbacks), so ordering and
  "never invoked" properties are statable;
* the concurrent coordinator (`generateHistorySchemas` + `createSchemas` in
  the revision that sorts inside each task) is modelled as a fold over the
  serialization of task completions, and the bare shared-slice append is
  additionally modelled at read/write granularity to exhibit its race;
* file-system and template-rendering steps (`getPkgFromSchemaPath`,
  `os.Create`, `parseSchemaTemplate`) are external collaborators per the
  spec's section 6 and are omitted from the embedding; only the in-memory
  schema values they receive are modelled.
-/

namespace Enthistory

/-- The `History` annotation payload (`Annotations` in the Go source):
`{exclude: bool, isHistory: bool}`. -/
structure HistoryAnnot where
  exclude : Bool
  isHistory : Bool
deriving DecidableEq

/-- The raw value stored under the `"History"` key of a schema's annotation
map.  In Go this is an untyped `any` that `jsonUnmarshalAnnotations` either
parses into `Annotations` or rejects; the embedding records that outcome. -/
inductive AnnotValue where
  | malformed
  | parsed (a : HistoryAnnot)
deriving DecidableEq

/-- `load.Position`: ordinal index of a field plus its mixin provenance. -/
structure Position where
  index : Nat
  mixedIn : Bool
  mixinIndex : Nat
deriving DecidableEq

/-- `load.Field`: the components the repository's `createHistoryFields`
literal copies (name, type info, tag, size, enums, unique, nillable,
optional, default flag/value/kind, immutable, storage key, position,
sensitive, schema type, annotation map, comment) plus the two components of
`load.Field` that the clone literal omits — `UpdateDefault` and `Validators`
— which Go's composite-literal semantics therefore resets to their zero
values (`false`, `0`).  Opaque payloads (type descriptor, default value,
typed annotation values) are rendered as strings; their internal structure
is never inspected by the code under verification. -/
structure Field where
  name : String
  info : String
  tag : String
  size : Option Int
  enums : List (String × String)
  unique : Bool
  nillable : Bool
  optional : Bool
  default : Bool
  defaultValue : Option String
  defaultKind : String
  updateDefault : Bool
  immutable : Bool
  validators : Int
  storageKey : String
  position : Position
  sensitive : Bool
  schemaType : List (String × String)
  annots : List (String × String)
  comment : String
deriving DecidableEq

/-- `load.Schema`, restricted to what the code under verification reads or
writes: the name, the ordered field list, the indexes (each an index is its
list of field names), the `"History"` annotation slot, the `"EntSQL"`
table/schema annotation slot, the `"DATUM_SCHEMAGEN"` skip flag, and whether
a declared `ent.Policy` is present. -/
structure Schema where
  name : String
  fields : List Field
  indexes : List (List String)
  historyAnnot : Option AnnotValue
  entSqlTable : String
  entSqlSchema : String
  datumSkip : Bool
  hasPolicy : Bool
deriving DecidableEq

/-- The extension `Config`, restricted to the toggles that feed the derived
schema value itself.  `UpdatedBy`, `Auditing`, `SchemaPath`, `SchemaName` and
`FieldProperties` only feed template rendering (an external collaborator) and
are omitted. -/
structure Config where
  historyTimeIndex : Bool
deriving DecidableEq

/-- `historyTableSuffix = "_history"`. -/
def historyTableSuffix : String := "_history"

/-- Modelled from the spec: `jsonUnmarshalAnnotations` is called by
`shouldGenerate` but its definition is not among the provided sources.  Per
the spec (section 4.3), the annotation payload either unmarshals into the
`{exclude, isHistory}` record or fails; the embedding's `AnnotValue` carries
that outcome directly. -/
def jsonUnmarshalAnnots : AnnotValue → Except String HistoryAnnot
  | AnnotValue.malformed => Except.error "unmarshal error"
  | AnnotValue.parsed a => Except.ok a

/-- `shouldGenerate` (generateschemas.go): no `"History"` annotation, or an
unparsable one, means generate; otherwise generate unless `exclude` or
`isHistory` is set. -/
def shouldGenerate (schema : Schema) : Bool :=
  match schema.historyAnnot with
  | none => true
  | some historyAnn =>
    match jsonUnmarshalAnnots historyAnn with
    | Except.error _ => true
    | Except.ok annots =>
      if annots.exclude then false
      else if annots.isHistory then false
      else true

/-- Modelled from the spec: `getHistoryAnnotations` is called by the
coordinator (`createSchemas` / `generateHistorySchemas`) but its definition
is not among the provided sources.  Per the spec (section 3,
HistoryAnnotation), it yields the parsed `History` annotation, and the zero
value `{exclude := false, isHistory := false}` when the annotation is absent
or unparsable. -/
def getHistoryAnnots (schema : Schema) : HistoryAnnot :=
  match schema.historyAnnot with
  | some (AnnotValue.parsed a) => a
  | _ => { exclude := false, isHistory := false }

/-- The body of the loop of `createHistoryFields`: the Go code builds
`newField` by listing every copied component of the original field (with
`Unique: false` and `Position: copyRef(field.Position)`), then overwrites
`Position` with the fresh sequential index and cleared mixin provenance.
The Go struct literal does not list `UpdateDefault` or `Validators`, so the
clone takes their zero values (`false`, `0`) instead of copying the
original's. -/
def cloneField (i : Nat) (f : Field) : Field :=
  let newField : Field :=
    { name := f.name
      info := f.info
      tag := f.tag
      size := f.size
      enums := f.enums
      unique := false
      nillable := f.nillable
      optional := f.optional
      default := f.default
      defaultValue := f.defaultValue
      defaultKind := f.defaultKind
      updateDefault := false
      immutable := f.immutable
      validators := 0
      storageKey := f.storageKey
      position := f.position
      sensitive := f.sensitive
      schemaType := f.schemaType
      annots := f.annots
      comment := f.comment }
  { newField with position := { index := i, mixedIn := false, mixinIndex := 0 } }

/-- The counter-threading loop of `createHistoryFields`: `i` starts at 3 and
increments by one per original field in input order. -/
def createHistoryFieldsAux : Nat → List Field → List Field
  | _, [] => []
  | i, f :: fs => cloneField i f :: createHistoryFieldsAux (i + 1) fs

/-- `createHistoryFields` (enthistory.go / generate.go): clone every original
field, numbering positions from 3. -/
def createHistoryFields (schemaFields : List Field) : List Field :=
  createHistoryFieldsAux 3 schemaFields

/-- Modelled from the spec: `getIDType` resolves the identifier-type label
used for the synthetic `ref` field; its definition is not among the provided
sources and no claim depends on the label's spelling, so it is the identity
on the node's identifier type string. -/
def getIDType (idType : String) : String := idType

/-- Modelled from the spec: `loadHistorySchema` is called by
`generateHistorySchema` but its definition is not among the provided
sources.  Per the spec (section 3, DerivedHistorySchema), the base history
schema carries exactly the three synthetic fields `history_time`, `ref`
(typed by the original identifier type) and `operation`, in that order. -/
def loadHistorySchema (idType : String) : Schema :=
  { name := "History"
    fields :=
      [ { name := "history_time", info := "time.Time", tag := "", size := none
          enums := [], unique := false, nillable := false, optional := false
          default := true, defaultValue := none, defaultKind := "func"
          updateDefault := false, immutable := true, validators := 0
          storageKey := "", position := ⟨0, false, 0⟩
          sensitive := false, schemaType := [], annots := [], comment := "" }
      , { name := "ref", info := idType, tag := "", size := none
          enums := [], unique := false, nillable := false, optional := true
          default := false, defaultValue := none, defaultKind := ""
          updateDefault := false, immutable := true, validators := 0
          storageKey := "", position := ⟨1, false, 0⟩
          sensitive := false, schemaType := [], annots := [], comment := "" }
      , { name := "operation", info := "enthistory.OpType", tag := "", size := none
          enums := [], unique := false, nillable := false, optional := false
          default := false, defaultValue := none, defaultKind := ""
          updateDefault := false, immutable := true, validators := 0
          storageKey := "", position := ⟨2, false, 0⟩
          sensitive := false, schemaType := [], annots := [], comment := "" } ]
    indexes := []
    historyAnnot := none
    entSqlTable := ""
    entSqlSchema := ""
    datumSkip := false
    hasPolicy := false }

/-- Modelled from the spec: `getSchemaTableName` returns the original
schema's table name (its `EntSQL` table annotation); its definition is not
among the provided sources and no claim depends on it. -/
def getSchemaTableName (schema : Schema) : String :=
  if schema.entSqlTable = "" then schema.name else schema.entSqlTable

/-- The schema-construction core of `generateHistorySchema` (enthistory.go
lines 175-259 / generate.go lines 40-130): load the base history schema,
optionally append the `history_time` index, append the cloned fields, set
the derived name `<Name>History`, and attach the annotation map
`{EntSQL: {table, schema}, History: {isHistory: true, exclude: true},
DATUM_SCHEMAGEN: {skip: true}}`.  The error paths of the source
(`getPkgFromSchemaPath`, `loadHistorySchema`'s unsupported-identifier check,
`os.Create`, `parseSchemaTemplate`) concern config validation and file or
template output, all external collaborators per the spec's section 6, and
are omitted; the returned value is the in-memory `historySchema`. -/
def generateHistorySchema (cfg : Config) (schema : Schema) (idType : String) : Schema :=
  let tableName := getSchemaTableName schema ++ historyTableSuffix
  let historySchema := loadHistorySchema (getIDType idType)
  let historySchema :=
    if cfg.historyTimeIndex then
      { historySchema with indexes := historySchema.indexes ++ [["history_time"]] }
    else historySchema
  let historyFields := createHistoryFields schema.fields
  { historySchema with
      name := schema.name ++ "History"
      fields := historySchema.fields ++ historyFields
      historyAnnot := some (AnnotValue.parsed { exclude := true, isHistory := true })
      entSqlTable := tableName
      datumSkip := true }

/-- Whether `pfx` is a leading segment of `l` (over characters); the
building block of the byte-substring test of Go's `strings.Contains`. -/
def isPfxOf : List Char → List Char → Bool
  | [], _ => true
  | _ :: _, [] => false
  | a :: as, b :: bs => a == b && isPfxOf as bs

/-- Whether `sub` occurs contiguously inside `l`. -/
def hasSubList (sub : List Char) : List Char → Bool
  | [] => isPfxOf sub []
  | c :: cs => isPfxOf sub (c :: cs) || hasSubList sub cs

/-- `strings.Contains(s, sub)`: `sub` occurs as a contiguous substring of
`s`. -/
def strContains (s sub : String) : Bool :=
  hasSubList sub.data s.data

/-- The loop of `isOrgOwned` (generateschemas.go): skip fields that are not
mixed in; at the first mixed-in field named `owner_id`, return whether its
comment contains `"organization"`; otherwise false. -/
def isOrgOwnedFields : List Field → Bool
  | [] => false
  | f :: fs =>
    if !f.position.mixedIn then isOrgOwnedFields fs
    else if f.name = "owner_id" then strContains f.comment "organization"
    else isOrgOwnedFields fs

/-- `isOrgOwned` (generateschemas.go lines 254-267). -/
def isOrgOwned (schema : Schema) : Bool :=
  isOrgOwnedFields schema.fields

/-- The loop of `isUserOwned`, identical to `isOrgOwned` with the substring
`"user"`. -/
def isUserOwnedFields : List Field → Bool
  | [] => false
  | f :: fs =>
    if !f.position.mixedIn then isUserOwnedFields fs
    else if f.name = "owner_id" then strContains f.comment "user"
    else isUserOwnedFields fs

/-- `isUserOwned` (generateschemas.go lines 270-283). -/
def isUserOwned (schema : Schema) : Bool :=
  isUserOwnedFields schema.fields

/-- Lexicographic strict comparison of character sequences by code point:
the comparison underlying Go's `<` on strings (byte-wise there, code-point
here; the two agree on the ASCII names this code produces). -/
def charListLt : List Char → List Char → Bool
  | _, [] => false
  | [], _ :: _ => true
  | a :: as, b :: bs =>
    Nat.blt a.toNat b.toNat || (a.toNat == b.toNat && charListLt as bs)

/-- Go's `s < t` on strings: strict lexicographic comparison. -/
def strLtB (s t : String) : Bool :=
  charListLt s.data t.data

/-- Insertion of one schema into a name-ordered list.  Go's
`sort.Slice(schemas, less := Name < Name)` is an unstable comparison sort;
any output nondecreasing under the same comparison refines it, and with
pairwise-distinct names the sorted permutation is unique, so insertion sort
is a faithful model. -/
def insertByName (s : Schema) : List Schema → List Schema
  | [] => [s]
  | t :: ts => if strLtB s.name t.name then s :: t :: ts else t :: insertByName s ts

/-- The name order the sort establishes: `a` precedes `b` when `b`'s name is
not strictly below `a`'s (the non-strict complement of `strLtB`, i.e.
`a.name` is lexicographically at most `b.name`). -/
def schemaNameLe (a b : Schema) : Prop :=
  strLtB b.name a.name = false

/-- `sortSchemasAlphabetically` (unnamed/part_001 lines 334-342): sort the
schema list by name so ordering is consistent. -/
def sortSchemasAlphabetically (schemas : List Schema) : List Schema :=
  schemas.foldr insertByName []

/-- Build-time error taxonomy (errors.go); only `NoIDType` is reachable in
the embedded fragment. -/
inductive GenErr where
  | noIDType (schemaName : String)
deriving DecidableEq

/-- The identifier-type lookup of the coordinator: `for _, node := range
g.Nodes { if schema.Name == node.Name { idType = node.ID.Type } }`, last
match winning, `nil` when no node matches.  Nodes are modelled as
name/identifier-type pairs. -/
def nodeIDType (nodes : List (String × String)) (name : String) : Option String :=
  nodes.foldl (fun acc node => if name = node.fst then some node.snd else acc) none

/-- The sequential coordinator `generateHistorySchemas` (enthistory.go lines
265-313): walk the schemas in order; keep excluded non-history originals,
drop excluded history schemas, and for every other schema resolve the
identifier type — failing the whole run with `NoIDType` when it is missing —
and emit the original followed by its derived history schema.  The
`gen.NewGraph`/`next.Generate` handoff consumes the `Except.ok` list; an
`Except.error` aborts before any handoff. -/
def generateHistorySchemasSeq (cfg : Config) (nodes : List (String × String)) :
    List Schema → Except GenErr (List Schema)
  | [] => Except.ok []
  | schema :: rest =>
    let annots := getHistoryAnnots schema
    if annots.exclude then
      match generateHistorySchemasSeq cfg nodes rest with
      | Except.error e => Except.error e
      | Except.ok tail =>
        Except.ok (if !annots.isHistory then schema :: tail else tail)
    else
      match nodeIDType nodes schema.name with
      | none => Except.error (GenErr.noIDType schema.name)
      | some idType =>
        match generateHistorySchemasSeq cfg nodes rest with
        | Except.error e => Except.error e
        | Except.ok tail =>
          Except.ok (schema :: generateHistorySchema cfg schema idType :: tail)

/-- One task body of `createSchemas` (unnamed/part_001 lines 184-219),
applied to the shared collection `acc` at the serialization point where this
task's effect lands: excluded non-history schemas are appended bare (no
sort); every other schema resolves its identifier type (`panic` on failure,
modelled as a run-aborting error) and appends the original plus its derived
history schema, then sorts the whole collection. -/
def createSchemasStep (cfg : Config) (nodes : List (String × String))
    (acc : List Schema) (schema : Schema) : Except GenErr (List Schema) :=
  let annots := getHistoryAnnots schema
  if annots.exclude then
    if !annots.isHistory then Except.ok (acc ++ [schema]) else Except.ok acc
  else
    match nodeIDType nodes schema.name with
    | none => Except.error (GenErr.noIDType schema.name)
    | some idType =>
      let historySchema := generateHistorySchema cfg schema idType
      Except.ok (sortSchemasAlphabetically (acc ++ [schema, historySchema]))

/-- The concurrent coordinator `generateHistorySchemas` (unnamed/part_001
lines 161-181) under a serialization of task completions: the tasks spawned
for the input schemas land their effects in `completionOrder` (an arbitrary
permutation of the input, since goroutine scheduling is uncontrolled), and
`wg.Wait` hands the final collection to `gen.NewGraph`. -/
def runTasks (cfg : Config) (nodes : List (String × String)) :
    List Schema → List Schema → Except GenErr (List Schema)
  | acc, [] => Except.ok acc
  | acc, schema :: rest =>
    match createSchemasStep cfg nodes acc schema with
    | Except.error e => Except.error e
    | Except.ok acc' => runTasks cfg nodes acc' rest

/-- The collection the coordinator hands downstream, as a function of the
order in which the per-schema tasks complete. -/
def runCoordinator (cfg : Config) (nodes : List (String × String))
    (completionOrder : List Schema) : Except GenErr (List Schema) :=
  runTasks cfg nodes [] completionOrder

/-- The shared-slice append `h.schemas = append(h.schemas, ...)` performed by
each `createSchemas` goroutine compiles to a read of the shared slice
followed by a write of the grown slice; with no synchronization the halves
of two tasks may interleave.  `RaceStep` names the four micro-steps of two
racing tasks A and B. -/
inductive RaceStep where
  | readA
  | writeA
  | readB
  | writeB
deriving DecidableEq

/-- Shared collection plus the two tasks' local copies mid-append. -/
structure RaceState where
  shared : List Schema
  localA : Option (List Schema)
  localB : Option (List Schema)
deriving DecidableEq

/-- Effect of one micro-step: a read snapshots the shared list grown by the
task's contribution; a write publishes the snapshot. -/
def raceStep (ca cb : List Schema) (st : RaceState) : RaceStep → RaceState
  | RaceStep.readA => { st with localA := some (st.shared ++ ca) }
  | RaceStep.writeA =>
    match st.localA with
    | some l => { st with shared := l }
    | none => st
  | RaceStep.readB => { st with localB := some (st.shared ++ cb) }
  | RaceStep.writeB =>
    match st.localB with
    | some l => { st with shared := l }
    | none => st

/-- The shared collection after an interleaving of the two appends. -/
def runRace (ca cb : List Schema) (steps : List RaceStep) : List Schema :=
  (steps.foldl (raceStep ca cb) ⟨[], none, none⟩).shared

/-! Runtime mutation hooks (the hooks file bundled in generateschemas.go).
Side effects are recorded in an explicit event trace: running the underlying
mutator logs `mutate`, and each history-write callback logs its event before
yielding its outcome, so ordering and non-invocation are observable. -/

/-- Runtime error values (Go `error`), rendered as strings. -/
abbrev Err := String

/-- `ent.Value`, opaque to the hooks. -/
abbrev Value := Nat

/-- Observable side effects of one mutation's lifecycle. -/
inductive Event where
  | mutate
  | histCreate
  | histUpdate
  | histDelete
deriving DecidableEq

/-- A mutation under test: its operation bitmask, whether the `Mutation`
capability type assertion succeeds, and the outcome each history-write
callback would produce when invoked. -/
structure Mut where
  op : Nat
  typedOk : Bool
  createHistRes : Except Err Unit
  updateHistRes : Except Err Unit
  deleteHistRes : Except Err Unit

/-- Event log of one mutation's lifecycle. -/
abbrev Trace := List Event

/-- `ent.Mutator`: consumes the mutation, threading the event trace. -/
abbrev Mutator := Mut → Trace → Trace × Except Err Value

/-- `ent.Hook`: transforms a mutator. -/
abbrev Hook := Mutator → Mutator

/-- The ent operation constants `OpCreate, OpDelete, OpDeleteOne, OpUpdate,
OpUpdateOne` (successive bits). -/
def OpCreate : Nat := 1

/-- `ent.OpDelete`. -/
def OpDelete : Nat := 2

/-- `ent.OpDeleteOne`. -/
def OpDeleteOne : Nat := 4

/-- `ent.OpUpdate`. -/
def OpUpdate : Nat := 8

/-- `ent.OpUpdateOne`. -/
def OpUpdateOne : Nat := 16

/-- `ent.Op.Is`: the in-flight operation intersects the target bitmask. -/
def opIs (i o : Nat) : Bool :=
  (i &&& o) != 0

/-- `On` (hooks): run the wrapped hook only when the mutation's operation
matches; otherwise pass through to `next` untouched. -/
def On (hk : Hook) (op : Nat) : Hook :=
  fun next m tr =>
    if opIs m.op op then hk next m tr else next m tr

/-- `getTypedMutation`: the runtime type assertion to the `Mutation`
capability; fails fast with the mismatch error. -/
def getTypedMutation (m : Mut) : Except Err Mut :=
  if m.typedOk then Except.ok m
  else Except.error "expected appropriately typed mutation in schema hook"

/-- Invoking `mutation.CreateHistoryFromCreate(ctx)`: logs its event, yields
its outcome. -/
def createHistoryFromCreate (m : Mut) (tr : Trace) : Trace × Except Err Unit :=
  (tr ++ [Event.histCreate], m.createHistRes)

/-- Invoking `mutation.CreateHistoryFromUpdate(ctx)`. -/
def createHistoryFromUpdate (m : Mut) (tr : Trace) : Trace × Except Err Unit :=
  (tr ++ [Event.histUpdate], m.updateHistRes)

/-- Invoking `mutation.CreateHistoryFromDelete(ctx)`. -/
def createHistoryFromDelete (m : Mut) (tr : Trace) : Trace × Except Err Unit :=
  (tr ++ [Event.histDelete], m.deleteHistRes)

/-- `historyHookCreate`: assert the capability, run the underlying mutation,
and only on its success invoke the history-from-create callback; any error
returns immediately. -/
def historyHookCreate : Hook :=
  fun next m tr =>
    match getTypedMutation m with
    | Except.error e => (tr, Except.error e)
    | Except.ok mutation =>
      match next m tr with
      | (tr1, Except.error e) => (tr1, Except.error e)
      | (tr1, Except.ok value) =>
        match createHistoryFromCreate mutation tr1 with
        | (tr2, Except.error e) => (tr2, Except.error e)
        | (tr2, Except.ok _) => (tr2, Except.ok value)

/-- `historyHookUpdate`: assert the capability, invoke the
history-from-update callback, and only on its success run the underlying
mutation, whose outcome is returned as is. -/
def historyHookUpdate : Hook :=
  fun next m tr =>
    match getTypedMutation m with
    | Except.error e => (tr, Except.error e)
    | Except.ok mutation =>
      match createHistoryFromUpdate mutation tr with
      | (tr1, Except.error e) => (tr1, Except.error e)
      | (tr1, Except.ok _) => next m tr1

/-- `historyHookDelete`: identical shape to the update hook with the
history-from-delete callback. -/
def historyHookDelete : Hook :=
  fun next m tr =>
    match getTypedMutation m with
    | Except.error e => (tr, Except.error e)
    | Except.ok mutation =>
      match createHistoryFromDelete mutation tr with
      | (tr1, Except.error e) => (tr1, Except.error e)
      | (tr1, Except.ok _) => next m tr1

/-- `HistoryHooks`: the three operation-filtered interceptors. -/
def HistoryHooks : List Hook :=
  [ On historyHookCreate OpCreate
  , On historyHookUpdate (OpUpdate ||| OpUpdateOne)
  , On historyHookDelete (OpDelete ||| OpDeleteOne) ]

/-- An underlying mutator that logs the `mutate` event and yields a fixed
outcome: the executor the hooks wrap. -/
def underlyingMutator (res : Except Err Value) : Mutator :=
  fun _ tr => (tr ++ [Event.mutate], res)

/-! Concrete values used by witnesses and counterexamples. -/

/-- A field literal with neutral attributes, specialized by name below. -/
def plainField (name : String) : Field :=
  { name := name, info := "string", tag := "", size := none
    enums := [], unique := false, nillable := false, optional := false
    default := false, defaultValue := none, defaultKind := ""
    updateDefault := false, immutable := false, validators := 0
    storageKey := "", position := ⟨0, false, 0⟩
    sensitive := false, schemaType := [], annots := [], comment := "" }

/-- A field carrying an update-time default and validators, exercising the
`load.Field` components the clone literal omits. -/
def updDefaultFieldEx : Field :=
  { plainField "updated_at" with updateDefault := true, validators := 2 }

/-- A schema excluded from history tracking (its annotation parses to
`{exclude: true, isHistory: false}`), named so it sorts first. -/
def alphaEx : Schema :=
  { name := "Alpha"
    fields := [plainField "item"]
    indexes := []
    historyAnnot := some (AnnotValue.parsed { exclude := true, isHistory := false })
    entSqlTable := ""
    entSqlSchema := ""
    datumSkip := false
    hasPolicy := false }

/-- An includable schema with no annotation, named so it sorts last. -/
def zetaEx : Schema :=
  { name := "Zeta"
    fields := [plainField "item"]
    indexes := []
    historyAnnot := none
    entSqlTable := ""
    entSqlSchema := ""
    datumSkip := false
    hasPolicy := false }

/-- An includable schema mirroring the test fixture `User` (three fields,
the third unique), with no annotation. -/
def userEx : Schema :=
  { name := "User"
    fields :=
      [ { plainField "age" with info := "int", position := ⟨0, false, 0⟩ }
      , { plainField "name" with position := ⟨1, false, 0⟩ }
      , { plainField "nickname" with unique := true, position := ⟨2, false, 0⟩ } ]
    indexes := [["age", "name"]]
    historyAnnot := none
    entSqlTable := ""
    entSqlSchema := ""
    datumSkip := false
    hasPolicy := false }

/-- A schema with a mixed-in `owner_id` field whose comment is
`"organization id"`, plus an ordinary field. -/
def orgOwnedEx : Schema :=
  { name := "Invoice"
    fields :=
      [ { plainField "amount" with info := "int", position := ⟨0, false, 0⟩ }
      , { plainField "owner_id" with
            position := ⟨0, true, 1⟩, comment := "organization id" } ]
    indexes := []
    historyAnnot := none
    entSqlTable := ""
    entSqlSchema := ""
    datumSkip := false
    hasPolicy := false }

/-- The config with every toggle off. -/
def baseCfg : Config := { historyTimeIndex := false }

/-- Graph nodes for the coordinator examples: only `Zeta` resolves an
identifier type (`Alpha` never needs one, being excluded). -/
def c4Nodes : List (String × String) := [("Zeta", "string")]

/-- Names of the collection a coordinator run hands downstream (empty on an
aborted run), for stating concrete outcomes compactly. -/
def c4Run (completionOrder : List Schema) : List String :=
  match runCoordinator baseCfg c4Nodes completionOrder with
  | Except.ok l => l.map (fun s => s.name)
  | Except.error _ => []

/-- The derived history schema of `zetaEx`. -/
def zetaHistEx : Schema := generateHistorySchema baseCfg zetaEx "string"

/-- The collection produced when `Alpha`'s task completes before `Zeta`'s. -/
def c4SortedRun : List Schema := [alphaEx, zetaEx, zetaHistEx]

/-- A create mutation whose capability assertion and history write succeed. -/
def mutCreateEx : Mut :=
  { op := OpCreate, typedOk := true
    createHistRes := Except.ok (), updateHistRes := Except.ok ()
    deleteHistRes := Except.ok () }

/-- An update mutation whose history write fails. -/
def mutUpdFailEx : Mut :=
  { op := OpUpdate, typedOk := true
    createHistRes := Except.ok (), updateHistRes := Except.error "history write failed"
    deleteHistRes := Except.ok () }

/-- A delete-one mutation whose history write succeeds. -/
def mutDelOkEx : Mut :=
  { op := OpDeleteOne, typedOk := true
    createHistRes := Except.ok (), updateHistRes := Except.ok ()
    deleteHistRes := Except.ok () }

/-! Theorems. -/

/-- Claim C3: `shouldGenerate` returns false exactly when the schema's
`History` annotation parses with `exclude = true` or `isHistory = true`; in
every other case, including a missing or unparsable annotation, it returns
true. -/
theorem shouldGenerate_false_iff (s : Schema) :
    shouldGenerate s = false ↔
      ∃ a, s.historyAnnot = some (AnnotValue.parsed a) ∧
        (a.exclude = true ∨ a.isHistory = true) := by
  cases hann : s.historyAnnot with
  | none => simp [shouldGenerate, hann]
  | some v =>
    cases v with
    | malformed => simp [shouldGenerate, hann, jsonUnmarshalAnnots]
    | parsed a =>
      cases hex : a.exclude <;> cases hih : a.isHistory <;>
        simp [shouldGenerate, hann, jsonUnmarshalAnnots, hex, hih]

/-- Counterexample to claim C7: the clone changes more than uniqueness and
`Position` — for a field with an update-time default and validators, the Go
struct literal omits `UpdateDefault` and `Validators`, so the clone resets
them to their zero values and differs from the original updated at only
uniqueness and position. -/
theorem cloneField_not_frame_only :
    updDefaultFieldEx.updateDefault = true ∧
    updDefaultFieldEx.validators = 2 ∧
    (cloneField 3 updDefaultFieldEx).updateDefault = false ∧
    (cloneField 3 updDefaultFieldEx).validators = 0 ∧
    cloneField 3 updDefaultFieldEx ≠
      { updDefaultFieldEx with
          unique := false
          position := { index := 3, mixedIn := false, mixinIndex := 0 } } :=
  ⟨rfl, rfl, rfl, rfl, by decide⟩

/-- Claim C7 as amended: the cloned history field drops uniqueness
unconditionally and renumbers `Position`, while name, type info, tag, size,
enums, nillable, optional, default flag, default value, default kind,
immutable, storage key, sensitive, schema type, annotation map and comment
are identical to the original field's; besides uniqueness and position, the
two `load.Field` components absent from the clone literal — `UpdateDefault`
and `Validators` — are reset to their zero values rather than copied, and
the final conjunct states that nothing else changes. -/
theorem cloneField_frame_amended (f : Field) (i : Nat) :
    (cloneField i f).unique = false ∧
    (cloneField i f).position = { index := i, mixedIn := false, mixinIndex := 0 } ∧
    (cloneField i f).updateDefault = false ∧
    (cloneField i f).validators = 0 ∧
    (cloneField i f).name = f.name ∧
    (cloneField i f).info = f.info ∧
    (cloneField i f).tag = f.tag ∧
    (cloneField i f).size = f.size ∧
    (cloneField i f).enums = f.enums ∧
    (cloneField i f).nillable = f.nillable ∧
    (cloneField i f).optional = f.optional ∧
    (cloneField i f).default = f.default ∧
    (cloneField i f).defaultValue = f.defaultValue ∧
    (cloneField i f).defaultKind = f.defaultKind ∧
    (cloneField i f).immutable = f.immutable ∧
    (cloneField i f).storageKey = f.storageKey ∧
    (cloneField i f).sensitive = f.sensitive ∧
    (cloneField i f).schemaType = f.schemaType ∧
    (cloneField i f).annots = f.annots ∧
    (cloneField i f).comment = f.comment ∧
    cloneField i f =
      { f with unique := false
               position := { index := i, mixedIn := false, mixinIndex := 0 }
               updateDefault := false
               validators := 0 } :=
  ⟨rfl, rfl, rfl, rfl, rfl, rfl, rfl, rfl, rfl, rfl, rfl,
   rfl, rfl, rfl, rfl, rfl, rfl, rfl, rfl, rfl, rfl⟩

/-- Claim C10: every derived history schema carries the `History` annotation
`{isHistory: true, exclude: true}`, so `shouldGenerate` rejects it and
derivation never cascades to a second-level history schema. -/
theorem generateHistorySchema_closed (cfg : Config) (schema : Schema) (idType : String) :
    (generateHistorySchema cfg schema idType).historyAnnot
        = some (AnnotValue.parsed { exclude := true, isHistory := true }) ∧
    shouldGenerate (generateHistorySchema cfg schema idType) = false :=
  ⟨rfl, rfl⟩

/-- Claim C1: for a create mutation that the hooks intercept and whose
capability assertion passes, the underlying mutation executes first; if it
fails, the history-from-create callback is never invoked and the create
error propagates unchanged, and only after it succeeds does the callback
run. -/
theorem historyHookCreate_ordering (m : Mut) (res : Except Err Value)
    (hop : m.op = OpCreate) (hty : m.typedOk = true) :
    (∀ e : Err, res = Except.error e →
      On historyHookCreate OpCreate (underlyingMutator res) m []
        = ([Event.mutate], Except.error e)) ∧
    (∀ v : Value, res = Except.ok v →
      (On historyHookCreate OpCreate (underlyingMutator res) m []).1
        = [Event.mutate, Event.histCreate]) := by
  constructor
  · intro e he
    subst he
    simp [On, opIs, hop, OpCreate, historyHookCreate, getTypedMutation, hty,
      underlyingMutator]
  · intro v hv
    subst hv
    simp only [On, opIs, hop, OpCreate, historyHookCreate, getTypedMutation, hty,
      underlyingMutator, createHistoryFromCreate, if_true]
    cases m.createHistRes <;> simp

/-- Claim C2: for an update (or update-one) and a delete (or delete-one)
mutation that the hooks intercept and whose capability assertion passes, the
history callback runs before the underlying mutation; if the history write
fails, the underlying mutation is never attempted and the history-write
error propagates, and on success the underlying mutation runs afterwards
with its outcome returned as is. -/
theorem historyHookUpdateDelete_ordering (m : Mut) (res : Except Err Value)
    (hty : m.typedOk = true) :
    (∀ e : Err, m.op = OpUpdate ∨ m.op = OpUpdateOne →
      m.updateHistRes = Except.error e →
      On historyHookUpdate (OpUpdate ||| OpUpdateOne) (underlyingMutator res) m []
        = ([Event.histUpdate], Except.error e)) ∧
    (m.op = OpUpdate ∨ m.op = OpUpdateOne → m.updateHistRes = Except.ok () →
      On historyHookUpdate (OpUpdate ||| OpUpdateOne) (underlyingMutator res) m []
        = ([Event.histUpdate, Event.mutate], res)) ∧
    (∀ e : Err, m.op = OpDelete ∨ m.op = OpDeleteOne →
      m.deleteHistRes = Except.error e →
      On historyHookDelete (OpDelete ||| OpDeleteOne) (underlyingMutator res) m []
        = ([Event.histDelete], Except.error e)) ∧
    (m.op = OpDelete ∨ m.op = OpDeleteOne → m.deleteHistRes = Except.ok () →
      On historyHookDelete (OpDelete ||| OpDeleteOne) (underlyingMutator res) m []
        = ([Event.histDelete, Event.mutate], res)) := by
  refine ⟨?_, ?_, ?_, ?_⟩
  · intro e hop hu
    rcases hop with hop | hop <;>
      simp [On, opIs, hop, OpUpdate, OpUpdateOne, historyHookUpdate,
        getTypedMutation, hty, createHistoryFromUpdate, hu]
  · intro hop hu
    rcases hop with hop | hop <;>
      simp [On, opIs, hop, OpUpdate, OpUpdateOne, historyHookUpdate,
        getTypedMutation, hty, createHistoryFromUpdate, hu, underlyingMutator]
  · intro e hop hd
    rcases hop with hop | hop <;>
      simp [On, opIs, hop, OpDelete, OpDeleteOne, historyHookDelete,
        getTypedMutation, hty, createHistoryFromDelete, hd]
  · intro hop hd
    rcases hop with hop | hop <;>
      simp [On, opIs, hop, OpDelete, OpDeleteOne, historyHookDelete,
        getTypedMutation, hty, createHistoryFromDelete, hd, underlyingMutator]

/-- Witness for claim C1 at a concrete create mutation: a failing underlying
create yields exactly the mutate event and the unchanged error, and a
successful one is followed by the history-from-create event. -/
theorem historyHookCreate_ordering_witness :
    (mutCreateEx.op = OpCreate ∧ mutCreateEx.typedOk = true) ∧
    On historyHookCreate OpCreate (underlyingMutator (Except.error "insert failed"))
        mutCreateEx [] = ([Event.mutate], Except.error "insert failed") ∧
    (On historyHookCreate OpCreate (underlyingMutator (Except.ok 7)) mutCreateEx []).1
        = [Event.mutate, Event.histCreate] :=
  ⟨⟨rfl, rfl⟩,
   (historyHookCreate_ordering mutCreateEx (Except.error "insert failed") rfl rfl).1
     "insert failed" rfl,
   (historyHookCreate_ordering mutCreateEx (Except.ok 7) rfl rfl).2 7 rfl⟩

/-- Witness for claim C2 at concrete mutations: a failing history write on
update stops before the underlying mutation with its error, and a
successful history write on delete-one is followed by the underlying
mutation whose result is returned. -/
theorem historyHookUpdateDelete_ordering_witness :
    (mutUpdFailEx.typedOk = true ∧ mutDelOkEx.typedOk = true) ∧
    On historyHookUpdate (OpUpdate ||| OpUpdateOne) (underlyingMutator (Except.ok 5))
        mutUpdFailEx [] = ([Event.histUpdate], Except.error "history write failed") ∧
    On historyHookDelete (OpDelete ||| OpDeleteOne) (underlyingMutator (Except.ok 5))
        mutDelOkEx [] = ([Event.histDelete, Event.mutate], Except.ok 5) :=
  ⟨⟨rfl, rfl⟩,
   (historyHookUpdateDelete_ordering mutUpdFailEx (Except.ok 5) rfl).1
     "history write failed" (Or.inl rfl) rfl,
   (historyHookUpdateDelete_ordering mutDelOkEx (Except.ok 5) rfl).2.2.2
     (Or.inr rfl) rfl⟩

/-- Claim C5 (code side): the bare shared-slice append of `createSchemas` is
not access-synchronized — under the read-read-write-write interleaving of
two tasks the first task's contribution is lost, while the serialized
interleaving keeps both. -/
theorem bare_append_lost_update :
    runRace [alphaEx] [zetaEx]
        [RaceStep.readA, RaceStep.readB, RaceStep.writeA, RaceStep.writeB] = [zetaEx] ∧
    runRace [alphaEx] [zetaEx]
        [RaceStep.readA, RaceStep.writeA, RaceStep.readB, RaceStep.writeB]
        = [alphaEx, zetaEx] :=
  ⟨rfl, rfl⟩

/-- Length of the clone loop's output equals the input's. -/
theorem createHistoryFieldsAux_length (fs : List Field) :
    ∀ i, (createHistoryFieldsAux i fs).length = fs.length := by
  induction fs with
  | nil => intro i; simp [createHistoryFieldsAux]
  | cons f fs ih => intro i; simp [createHistoryFieldsAux, ih]

/-- Element `k` of the clone loop started at `i` is the original element `k`
cloned at position `i + k`. -/
theorem createHistoryFieldsAux_getElem (fs : List Field) :
    ∀ i k, (createHistoryFieldsAux i fs)[k]?
      = (fs[k]?).map (fun f => cloneField (i + k) f) := by
  induction fs with
  | nil => intro i k; simp [createHistoryFieldsAux]
  | cons f fs ih =>
    intro i k
    cases k with
    | zero => simp [createHistoryFieldsAux]
    | succ k =>
      have h := ih (i + 1) k
      simp only [createHistoryFieldsAux, List.getElem?_cons_succ]
      rw [h]
      have harith : i + 1 + k = i + (k + 1) := by omega
      rw [harith]

/-- Claim C6: the derived history schema has exactly `N + 3` fields, the
first three named `history_time`, `ref`, `operation` in that order; element
`k + 3` is the clone of original field `k`, carrying `Position.index =
k + 3` with mixin provenance cleared, so indexes run `3 .. N + 2`
strictly increasing in input order. -/
theorem derived_schema_shape (cfg : Config) (schema : Schema) (idType : String)
    (hinc : shouldGenerate schema = true) :
    (generateHistorySchema cfg schema idType).fields.length = schema.fields.length + 3 ∧
    ((generateHistorySchema cfg schema idType).fields.map (fun f => f.name)).take 3
        = ["history_time", "ref", "operation"] ∧
    (∀ k : Nat, (generateHistorySchema cfg schema idType).fields[k + 3]?
        = (schema.fields[k]?).map (fun f => cloneField (k + 3) f)) ∧
    (∀ k : Nat,
      ((generateHistorySchema cfg schema idType).fields[k + 3]?).map (fun f => f.position)
        = (schema.fields[k]?).map (fun _ => Position.mk (k + 3) false 0)) := by
  have hfields : (generateHistorySchema cfg schema idType).fields
      = (loadHistorySchema (getIDType idType)).fields ++ createHistoryFields schema.fields := by
    cases h : cfg.historyTimeIndex <;> simp [generateHistorySchema, h]
  have hidx : ∀ k : Nat, (generateHistorySchema cfg schema idType).fields[k + 3]?
      = (schema.fields[k]?).map (fun f => cloneField (k + 3) f) := by
    intro k
    rw [hfields]
    have h3 : ((loadHistorySchema (getIDType idType)).fields
        ++ createHistoryFields schema.fields)[k + 3]?
        = (createHistoryFields schema.fields)[k]? := by
      rw [List.getElem?_append_right (Nat.le_add_left 3 k)]
      rfl
    rw [h3]
    simp only [createHistoryFields]
    rw [createHistoryFieldsAux_getElem, Nat.add_comm 3 k]
  refine ⟨?_, ?_, hidx, ?_⟩
  · rw [hfields]
    simp [loadHistorySchema, createHistoryFields, createHistoryFieldsAux_length]
  · rw [hfields]
    simp [loadHistorySchema]
  · intro k
    rw [hidx k]
    cases hk : schema.fields[k]? <;> simp [cloneField]

/-- Witness for claim C6 at the `User` fixture (three fields): six derived
fields, synthetic prefix in order, and the first cloned field renumbered to
index 3 with mixin provenance cleared. -/
theorem derived_schema_shape_witness :
    shouldGenerate userEx = true ∧
    (generateHistorySchema baseCfg userEx "int").fields.length = userEx.fields.length + 3 ∧
    ((generateHistorySchema baseCfg userEx "int").fields.map (fun f => f.name)).take 3
        = ["history_time", "ref", "operation"] ∧
    ((generateHistorySchema baseCfg userEx "int").fields[0 + 3]?).map (fun f => f.position)
        = (userEx.fields[0]?).map (fun _ => Position.mk (0 + 3) false 0) :=
  ⟨rfl, (derived_schema_shape baseCfg userEx "int" rfl).1,
   (derived_schema_shape baseCfg userEx "int" rfl).2.1,
   (derived_schema_shape baseCfg userEx "int" rfl).2.2.2 0⟩

/-- The org-ownership scan returns true exactly when a mixed-in `owner_id`
field whose comment mentions `"organization"` exists, provided field names
are pairwise distinct (the ent invariant; the scan answers at the first
mixed-in `owner_id` it meets). -/
theorem isOrgOwnedFields_iff (fs : List Field)
    (huniq : fs.Pairwise (fun a b => a.name ≠ b.name)) :
    isOrgOwnedFields fs = true ↔
      ∃ f ∈ fs, f.position.mixedIn = true ∧ f.name = "owner_id" ∧
        strContains f.comment "organization" = true := by
  induction fs with
  | nil => simp [isOrgOwnedFields]
  | cons f fs ih =>
    obtain ⟨hhead, htail⟩ := List.pairwise_cons.mp huniq
    cases hmix : f.position.mixedIn with
    | false =>
      have hscan : isOrgOwnedFields (f :: fs) = isOrgOwnedFields fs := by
        simp [isOrgOwnedFields, hmix]
      rw [hscan, ih htail]
      constructor
      · rintro ⟨g, hg, hrest⟩
        exact ⟨g, List.mem_cons_of_mem f hg, hrest⟩
      · rintro ⟨g, hg, hgmix, hgname, hgc⟩
        rcases List.mem_cons.mp hg with rfl | hg2
        · rw [hmix] at hgmix; cases hgmix
        · exact ⟨g, hg2, hgmix, hgname, hgc⟩
    | true =>
      by_cases hname : f.name = "owner_id"
      · have hscan : isOrgOwnedFields (f :: fs) = strContains f.comment "organization" := by
          simp [isOrgOwnedFields, hmix, hname]
        rw [hscan]
        constructor
        · intro hc
          exact ⟨f, List.mem_cons_self f fs, hmix, hname, hc⟩
        · rintro ⟨g, hg, hgmix, hgname, hgc⟩
          rcases List.mem_cons.mp hg with rfl | hg2
          · exact hgc
          · exact absurd (hname.trans hgname.symm) (hhead g hg2)
      · have hscan : isOrgOwnedFields (f :: fs) = isOrgOwnedFields fs := by
          simp [isOrgOwnedFields, hmix, hname]
        rw [hscan, ih htail]
        constructor
        · rintro ⟨g, hg, hrest⟩
          exact ⟨g, List.mem_cons_of_mem f hg, hrest⟩
        · rintro ⟨g, hg, hgmix, hgname, hgc⟩
          rcases List.mem_cons.mp hg with rfl | hg2
          · exact absurd hgname hname
          · exact ⟨g, hg2, hgmix, hgname, hgc⟩

/-- The user-ownership scan, characterized like the org scan with the
substring `"user"`. -/
theorem isUserOwnedFields_iff (fs : List Field)
    (huniq : fs.Pairwise (fun a b => a.name ≠ b.name)) :
    isUserOwnedFields fs = true ↔
      ∃ f ∈ fs, f.position.mixedIn = true ∧ f.name = "owner_id" ∧
        strContains f.comment "user" = true := by
  induction fs with
  | nil => simp [isUserOwnedFields]
  | cons f fs ih =>
    obtain ⟨hhead, htail⟩ := List.pairwise_cons.mp huniq
    cases hmix : f.position.mixedIn with
    | false =>
      have hscan : isUserOwnedFields (f :: fs) = isUserOwnedFields fs := by
        simp [isUserOwnedFields, hmix]
      rw [hscan, ih htail]
      constructor
      · rintro ⟨g, hg, hrest⟩
        exact ⟨g, List.mem_cons_of_mem f hg, hrest⟩
      · rintro ⟨g, hg, hgmix, hgname, hgc⟩
        rcases List.mem_cons.mp hg with rfl | hg2
        · rw [hmix] at hgmix; cases hgmix
        · exact ⟨g, hg2, hgmix, hgname, hgc⟩
    | true =>
      by_cases hname : f.name = "owner_id"
      · have hscan : isUserOwnedFields (f :: fs) = strContains f.comment "user" := by
          simp [isUserOwnedFields, hmix, hname]
        rw [hscan]
        constructor
        · intro hc
          exact ⟨f, List.mem_cons_self f fs, hmix, hname, hc⟩
        · rintro ⟨g, hg, hgmix, hgname, hgc⟩
          rcases List.mem_cons.mp hg with rfl | hg2
          · exact hgc
          · exact absurd (hname.trans hgname.symm) (hhead g hg2)
      · have hscan : isUserOwnedFields (f :: fs) = isUserOwnedFields fs := by
          simp [isUserOwnedFields, hmix, hname]
        rw [hscan, ih htail]
        constructor
        · rintro ⟨g, hg, hrest⟩
          exact ⟨g, List.mem_cons_of_mem f hg, hrest⟩
        · rintro ⟨g, hg, hgmix, hgname, hgc⟩
          rcases List.mem_cons.mp hg with rfl | hg2
          · exact absurd hgname hname
          · exact ⟨g, hg2, hgmix, hgname, hgc⟩

/-- Claim C8: with pairwise-distinct field names (the ent invariant),
`isOrgOwned` is true exactly when a mixed-in `owner_id` field's comment
contains `"organization"`, `isUserOwned` likewise with `"user"`, and a
schema whose `owner_id` fields are all non-mixed-in gets both flags
false. -/
theorem ownership_inference (schema : Schema)
    (huniq : schema.fields.Pairwise (fun a b => a.name ≠ b.name)) :
    (isOrgOwned schema = true ↔
      ∃ f ∈ schema.fields, f.position.mixedIn = true ∧ f.name = "owner_id" ∧
        strContains f.comment "organization" = true) ∧
    (isUserOwned schema = true ↔
      ∃ f ∈ schema.fields, f.position.mixedIn = true ∧ f.name = "owner_id" ∧
        strContains f.comment "user" = true) ∧
    ((∀ f ∈ schema.fields, f.name = "owner_id" → f.position.mixedIn = false) →
      isOrgOwned schema = false ∧ isUserOwned schema = false) := by
  have horg := isOrgOwnedFields_iff schema.fields huniq
  have husr := isUserOwnedFields_iff schema.fields huniq
  refine ⟨horg, husr, ?_⟩
  intro hnone
  constructor
  · cases hv : isOrgOwned schema with
    | false => rfl
    | true =>
      obtain ⟨f, hf, hfm, hfn, _⟩ := horg.mp hv
      rw [hnone f hf hfn] at hfm
      cases hfm
  · cases hv : isUserOwned schema with
    | false => rfl
    | true =>
      obtain ⟨f, hf, hfm, hfn, _⟩ := husr.mp hv
      rw [hnone f hf hfn] at hfm
      cases hfm

/-- Witness for claim C8 at a concrete schema with a mixed-in `owner_id`
field commented `"organization id"`: the hypothesis holds and the
characterization applies. -/
theorem ownership_inference_witness :
    orgOwnedEx.fields.Pairwise (fun a b => a.name ≠ b.name) ∧
    ((isOrgOwned orgOwnedEx = true ↔
      ∃ f ∈ orgOwnedEx.fields, f.position.mixedIn = true ∧ f.name = "owner_id" ∧
        strContains f.comment "organization" = true) ∧
    (isUserOwned orgOwnedEx = true ↔
      ∃ f ∈ orgOwnedEx.fields, f.position.mixedIn = true ∧ f.name = "owner_id" ∧
        strContains f.comment "user" = true) ∧
    ((∀ f ∈ orgOwnedEx.fields, f.name = "owner_id" → f.position.mixedIn = false) →
      isOrgOwned orgOwnedEx = false ∧ isUserOwned orgOwnedEx = false)) := by
  have huniq : orgOwnedEx.fields.Pairwise (fun a b => a.name ≠ b.name) := by
    simp [orgOwnedEx, plainField]
  exact ⟨huniq, ownership_inference orgOwnedEx huniq⟩

/-- Claim C9: whenever some non-excluded schema has no resolvable identifier
type, the sequential coordinator aborts the whole run with the `NoIDType`
error of an offending schema — no collection is ever produced, so nothing
partial is handed downstream and no offending schema is silently
skipped. -/
theorem noIDType_aborts (cfg : Config) (nodes : List (String × String))
    (schemas : List Schema)
    (h : ∃ s ∈ schemas, (getHistoryAnnots s).exclude = false ∧
        nodeIDType nodes s.name = none) :
    ∃ name, generateHistorySchemasSeq cfg nodes schemas
        = Except.error (GenErr.noIDType name) ∧
      ∃ s ∈ schemas, s.name = name ∧ (getHistoryAnnots s).exclude = false ∧
        nodeIDType nodes s.name = none := by
  induction schemas with
  | nil => obtain ⟨s, hs, _⟩ := h; cases hs
  | cons s rest ih =>
    obtain ⟨t, ht, htex, htid⟩ := h
    cases hex : (getHistoryAnnots s).exclude with
    | true =>
      have htrest : t ∈ rest := by
        rcases List.mem_cons.mp ht with rfl | h2
        · rw [hex] at htex; cases htex
        · exact h2
      obtain ⟨name, herr, u, hu, hurest⟩ := ih ⟨t, htrest, htex, htid⟩
      refine ⟨name, ?_, u, List.mem_cons_of_mem s hu, hurest⟩
      simp [generateHistorySchemasSeq, hex, herr]
    | false =>
      cases hid : nodeIDType nodes s.name with
      | none =>
        exact ⟨s.name, by simp [generateHistorySchemasSeq, hex, hid],
          s, List.mem_cons_self s rest, rfl, hex, hid⟩
      | some idt =>
        have htrest : t ∈ rest := by
          rcases List.mem_cons.mp ht with rfl | h2
          · rw [hid] at htid; cases htid
          · exact h2
        obtain ⟨name, herr, u, hu, hurest⟩ := ih ⟨t, htrest, htex, htid⟩
        refine ⟨name, ?_, u, List.mem_cons_of_mem s hu, hurest⟩
        simp [generateHistorySchemasSeq, hex, hid, herr]

/-- Witness for claim C9: one includable schema with no graph node aborts
the run with its `NoIDType` error. -/
theorem noIDType_aborts_witness :
    (∃ s ∈ [userEx], (getHistoryAnnots s).exclude = false ∧
        nodeIDType [] s.name = none) ∧
    ∃ name, generateHistorySchemasSeq baseCfg [] [userEx]
        = Except.error (GenErr.noIDType name) ∧
      ∃ s ∈ [userEx], s.name = name ∧ (getHistoryAnnots s).exclude = false ∧
        nodeIDType [] s.name = none :=
  ⟨⟨userEx, List.mem_singleton.mpr rfl, rfl, rfl⟩,
   noIDType_aborts baseCfg [] [userEx]
     ⟨userEx, List.mem_singleton.mpr rfl, rfl, rfl⟩⟩

/-- Strict lexicographic comparison is transitive. -/
theorem charListLt_trans :
    ∀ (x y z : List Char), charListLt x y = true → charListLt y z = true →
      charListLt x z = true := by
  intro x
  induction x with
  | nil =>
    intro y z hxy hyz
    cases z with
    | nil =>
      cases y with
      | nil => simp [charListLt] at hxy
      | cons b bs => simp [charListLt] at hyz
    | cons c cs => simp [charListLt]
  | cons a as ih =>
    intro y z hxy hyz
    cases y with
    | nil => simp [charListLt] at hxy
    | cons b bs =>
      cases z with
      | nil => simp [charListLt] at hyz
      | cons c cs =>
        simp only [charListLt, Bool.or_eq_true, Bool.and_eq_true, Nat.blt_eq,
          beq_iff_eq] at hxy hyz ⊢
        rcases hxy with h1 | ⟨h1e, h1r⟩ <;> rcases hyz with h2 | ⟨h2e, h2r⟩
        · left; omega
        · left; omega
        · left; omega
        · right; exact ⟨by omega, ih bs cs h1r h2r⟩

/-- Strict lexicographic comparison is asymmetric. -/
theorem charListLt_asymm :
    ∀ (x y : List Char), charListLt x y = true → charListLt y x = false := by
  intro x
  induction x with
  | nil =>
    intro y hxy
    cases y with
    | nil => simp [charListLt] at hxy
    | cons b bs => simp [charListLt]
  | cons a as ih =>
    intro y hxy
    cases y with
    | nil => simp [charListLt] at hxy
    | cons b bs =>
      simp only [charListLt, Bool.or_eq_true, Bool.and_eq_true, Nat.blt_eq,
        beq_iff_eq] at hxy
      rw [Bool.eq_false_iff]
      intro hyx
      simp only [charListLt, Bool.or_eq_true, Bool.and_eq_true, Nat.blt_eq,
        beq_iff_eq] at hyx
      rcases hxy with h1 | ⟨h1e, h1r⟩ <;> rcases hyx with h2 | ⟨h2e, h2r⟩
      · omega
      · omega
      · omega
      · have hfalse := ih bs h1r
        rw [h2r] at hfalse
        exact Bool.noConfusion hfalse

/-- `strLtB` is transitive. -/
theorem strLtB_trans (x y z : String) :
    strLtB x y = true → strLtB y z = true → strLtB x z = true :=
  charListLt_trans x.data y.data z.data

/-- `strLtB` is asymmetric. -/
theorem strLtB_asymm (x y : String) :
    strLtB x y = true → strLtB y x = false :=
  charListLt_asymm x.data y.data

/-- Membership after name-ordered insertion. -/
theorem mem_insertByName {x s : Schema} :
    ∀ {l : List Schema}, x ∈ insertByName s l → x = s ∨ x ∈ l := by
  intro l
  induction l with
  | nil =>
    intro h
    simp [insertByName] at h
    exact Or.inl h
  | cons t ts ih =>
    intro h
    simp only [insertByName] at h
    split at h
    · exact List.mem_cons.mp h
    · rcases List.mem_cons.mp h with hxt | h2
      · exact Or.inr (by rw [hxt]; exact List.mem_cons_self t ts)
      · rcases ih h2 with h3 | h3
        · exact Or.inl h3
        · exact Or.inr (List.mem_cons_of_mem t h3)

/-- Name-ordered insertion preserves sortedness by name. -/
theorem sorted_insertByName (s : Schema) :
    ∀ l : List Schema,
      List.Sorted schemaNameLe l → List.Sorted schemaNameLe (insertByName s l) := by
  intro l
  induction l with
  | nil =>
    intro _
    simp [insertByName, List.sorted_singleton]
  | cons t ts ih =>
    intro hl
    obtain ⟨hall, hts⟩ := List.sorted_cons.mp hl
    simp only [insertByName]
    split
    · rename_i hlt
      refine List.sorted_cons.mpr ⟨?_, hl⟩
      intro b hb
      rcases List.mem_cons.mp hb with hbt | hb2
      · show strLtB b.name s.name = false
        rw [hbt]
        exact strLtB_asymm s.name t.name hlt
      · show strLtB b.name s.name = false
        rw [Bool.eq_false_iff]
        intro hbs
        have hbt := strLtB_trans b.name s.name t.name hbs hlt
        have h2 : strLtB b.name t.name = false := hall b hb2
        rw [h2] at hbt
        exact Bool.noConfusion hbt
    · rename_i hnlt
      have hst : strLtB s.name t.name = false := Bool.eq_false_iff.mpr hnlt
      refine List.sorted_cons.mpr ⟨?_, ih hts⟩
      intro b hb
      rcases mem_insertByName hb with hbs | hb2
      · show strLtB b.name t.name = false
        rw [hbs]
        exact hst
      · exact hall b hb2

/-- The output of `sortSchemasAlphabetically` is sorted by name. -/
theorem sorted_sortSchemasAlphabetically (l : List Schema) :
    List.Sorted schemaNameLe (sortSchemasAlphabetically l) := by
  induction l with
  | nil => simp [sortSchemasAlphabetically]
  | cons x xs ih => exact sorted_insertByName x _ ih

/-- Splitting a run at its final task. -/
theorem runTasks_append (cfg : Config) (nodes : List (String × String)) (s : Schema) :
    ∀ (l : List Schema) (acc : List Schema),
      runTasks cfg nodes acc (l ++ [s]) =
        match runTasks cfg nodes acc l with
        | Except.error e => Except.error e
        | Except.ok acc' => createSchemasStep cfg nodes acc' s := by
  intro l
  induction l with
  | nil =>
    intro acc
    simp only [List.nil_append, runTasks]
    cases h : createSchemasStep cfg nodes acc s <;> simp [runTasks, h]
  | cons x xs ih =>
    intro acc
    simp only [List.cons_append, runTasks]
    cases h : createSchemasStep cfg nodes acc x with
    | error e => simp
    | ok acc' => exact ih acc'

/-- Counterexample to claim C4: the same two-schema input produces different
collections under different task completion orders — when the excluded
schema `Alpha`'s task completes last, its bare append lands after the final
sort and the output is not name-sorted. -/
theorem coordinator_order_dependent :
    c4Run [zetaEx, alphaEx] = ["Zeta", "ZetaHistory", "Alpha"] ∧
    c4Run [alphaEx, zetaEx] = ["Alpha", "Zeta", "ZetaHistory"] :=
  ⟨rfl, rfl⟩

/-- Claim C4 as amended: a run of the concurrent coordinator (modelled at
task-completion serialization) hands downstream a name-sorted collection
provided the task that completes last is a deriving one (its schema not
excluded), since that task re-sorts the whole shared collection; runs whose
last-completing task is an excluded schema's may instead trail its original
after the sorted segment. -/
theorem coordinator_sorted_amended (cfg : Config) (nodes : List (String × String))
    (order : List Schema) (s : Schema) (res : List Schema)
    (hincl : (getHistoryAnnots s).exclude = false)
    (hrun : runCoordinator cfg nodes (order ++ [s]) = Except.ok res) :
    List.Sorted schemaNameLe res := by
  unfold runCoordinator at hrun
  rw [runTasks_append] at hrun
  cases hprev : runTasks cfg nodes [] order with
  | error e => rw [hprev] at hrun; cases hrun
  | ok acc' =>
    rw [hprev] at hrun
    simp [createSchemasStep, hincl] at hrun
    cases hid : nodeIDType nodes s.name with
    | none => rw [hid] at hrun; cases hrun
    | some idt =>
      rw [hid] at hrun
      simp only [Except.ok.injEq] at hrun
      rw [← hrun]
      exact sorted_sortSchemasAlphabetically _

/-- Witness for the amended claim C4: with `Alpha` (excluded) completing
first and `Zeta` (deriving) last, the run succeeds and its collection is
name-sorted. -/
theorem coordinator_sorted_amended_witness :
    (getHistoryAnnots zetaEx).exclude = false ∧
    List.Sorted schemaNameLe c4SortedRun :=
  ⟨rfl, coordinator_sorted_amended baseCfg c4Nodes [alphaEx] zetaEx c4SortedRun rfl rfl⟩

end Enthistory
